import Mathlib

/-!
Verification of the unicornscan scanner core against its specification.

Each definition below is a shallow embedding of a C function from the
repository (file and function named next to each definition).  Machine
integers are modelled as `Nat` with explicit bounds carried as hypotheses
(a `uint16_t` parameter becomes a `Nat` argument with an `< 65536`
hypothesis in the theorems); byte buffers become `List Nat` with an
all-bytes-below-256 hypothesis; fallible functions return `Option`.
-/

namespace Unicornscan

/-! ### Bit-manipulation helper lemmas -/

theorem byte_or2 (b0 b1 : Nat) (h1 : b1 < 256) :
    (b0 <<< 8) ||| b1 = b0 * 2 ^ 8 + b1 := by
  rw [Nat.shiftLeft_eq, Nat.mul_comm b0 (2 ^ 8), ← Nat.mul_add_lt_is_or h1 b0, Nat.mul_comm]

theorem byte_or4 (b0 b1 b2 b3 : Nat)
    (h1 : b1 < 256) (h2 : b2 < 256) (h3 : b3 < 256) :
    (b0 <<< 24) ||| (b1 <<< 16) ||| (b2 <<< 8) ||| b3 =
      b0 * 2 ^ 24 + b1 * 2 ^ 16 + b2 * 2 ^ 8 + b3 := by
  have e2 : (b2 <<< 8) ||| b3 = b2 * 2 ^ 8 + b3 := byte_or2 b2 b3 h3
  have l2 : b2 * 2 ^ 8 + b3 < 2 ^ 16 := by omega
  have e1 : (b1 <<< 16) ||| (b2 * 2 ^ 8 + b3) = b1 * 2 ^ 16 + (b2 * 2 ^ 8 + b3) := by
    rw [Nat.shiftLeft_eq, Nat.mul_comm b1 (2 ^ 16), ← Nat.mul_add_lt_is_or l2 b1, Nat.mul_comm]
  have l1 : b1 * 2 ^ 16 + (b2 * 2 ^ 8 + b3) < 2 ^ 24 := by omega
  have e0 : (b0 <<< 24) ||| (b1 * 2 ^ 16 + (b2 * 2 ^ 8 + b3)) =
      b0 * 2 ^ 24 + (b1 * 2 ^ 16 + (b2 * 2 ^ 8 + b3)) := by
    rw [Nat.shiftLeft_eq, Nat.mul_comm b0 (2 ^ 24), ← Nat.mul_add_lt_is_or l1 b0, Nat.mul_comm]
  calc (b0 <<< 24) ||| (b1 <<< 16) ||| (b2 <<< 8) ||| b3
      = (b0 <<< 24) ||| ((b1 <<< 16) ||| ((b2 <<< 8) ||| b3)) := by
        rw [Nat.or_assoc, Nat.or_assoc]
    _ = b0 * 2 ^ 24 + b1 * 2 ^ 16 + b2 * 2 ^ 8 + b3 := by
        rw [e2, e1, e0]; omega

theorem and_fifteen (n : Nat) : n &&& 15 = n % 16 := by
  have h := Nat.and_pow_two_sub_one_eq_mod n 4
  norm_num at h
  exact h

set_option maxRecDepth 4000 in
theorem byte_and_128 (b : Nat) (hb : b < 256) : (b &&& 128 ≠ 0) ↔ 128 ≤ b := by
  revert hb
  revert b
  decide

theorem and_high_bit (b0 b1 b2 b3 : Nat)
    (h0 : b0 < 256) (h1 : b1 < 256) (h2 : b2 < 256) (h3 : b3 < 256) :
    (((b0 <<< 24) ||| (b1 <<< 16) ||| (b2 <<< 8) ||| b3) &&& 2147483648 ≠ 0) ↔ 128 ≤ b0 := by
  rw [byte_or4 b0 b1 b2 b3 h1 h2 h3]
  constructor
  · intro h
    by_contra hlt
    have hb : b0 * 2 ^ 24 + b1 * 2 ^ 16 + b2 * 2 ^ 8 + b3 < 2 ^ 31 := by omega
    have : (2147483648 : Nat) = 2 ^ 31 := by norm_num
    rw [this, Nat.and_two_pow, Nat.testBit_lt_two_pow hb] at h
    simp at h
  · intro h
    have : (2147483648 : Nat) = 2 ^ 31 := by norm_num
    rw [this, Nat.and_two_pow]
    have hbit : (b0 * 2 ^ 24 + b1 * 2 ^ 16 + b2 * 2 ^ 8 + b3).testBit 31 = true := by
      have hge : 2 ^ 31 ≤ b0 * 2 ^ 24 + b1 * 2 ^ 16 + b2 * 2 ^ 8 + b3 := by omega
      have hlt : b0 * 2 ^ 24 + b1 * 2 ^ 16 + b2 * 2 ^ 8 + b3 < 2 ^ 32 := by omega
      by_contra hf
      simp only [Bool.not_eq_true] at hf
      have h30 : b0 * 2 ^ 24 + b1 * 2 ^ 16 + b2 * 2 ^ 8 + b3 < 2 ^ 31 := by
        have := Nat.lt_pow_two_of_testBit (n := 32) (b0 * 2 ^ 24 + b1 * 2 ^ 16 + b2 * 2 ^ 8 + b3)
        have hall : ∀ i, i ≥ 31 →
            (b0 * 2 ^ 24 + b1 * 2 ^ 16 + b2 * 2 ^ 8 + b3).testBit i = false := by
          intro i hi
          rcases Nat.eq_or_lt_of_le hi with rfl | hgt
          · exact hf
          · exact Nat.testBit_lt_two_pow (lt_of_lt_of_le hlt (Nat.pow_le_pow_right (by norm_num) hgt))
        exact Nat.lt_pow_two_of_testBit _ hall
      omega
    rw [hbit]
    simp

/-! ### Source-port encoding — src/scan_progs/scan_export.h

`TRACE_PORT_BASE`, `PAYLOAD_PORT_BASE`, `encode_payload_port`,
`decode_payload_index` translated from the header. -/

def TRACE_PORT_BASE : Nat := 40960

def PAYLOAD_PORT_BASE : Nat := 49152

def PAYLOAD_INDEX_BITS : Nat := 4

def PAYLOAD_INDEX_MASK : Nat := (1 <<< PAYLOAD_INDEX_BITS) - 1

/-- `encode_payload_port(base_sport, payload_index)`; both C parameters are
`uint16_t`, modelled as `Nat` bounded by 65536 in the theorems. -/
def encode_payload_port (base_sport payload_index : Nat) : Nat :=
  let b := if base_sport < PAYLOAD_PORT_BASE
             then PAYLOAD_PORT_BASE + (base_sport % (65536 - PAYLOAD_PORT_BASE))
             else base_sport
  let offset := (b - PAYLOAD_PORT_BASE) / (1 <<< PAYLOAD_INDEX_BITS)
  PAYLOAD_PORT_BASE + (offset <<< PAYLOAD_INDEX_BITS) + (payload_index &&& PAYLOAD_INDEX_MASK)

/-- `decode_payload_index(sport)` -/
def decode_payload_index (sport : Nat) : Nat :=
  if sport < PAYLOAD_PORT_BASE then 0
  else (sport - PAYLOAD_PORT_BASE) &&& PAYLOAD_INDEX_MASK

theorem encode_payload_port_eq (base_sport payload_index : Nat) :
    encode_payload_port base_sport payload_index =
      49152 + ((if base_sport < 49152 then base_sport % 16384 else base_sport - 49152) / 16) * 16
        + payload_index % 16 := by
  simp only [encode_payload_port, PAYLOAD_PORT_BASE, PAYLOAD_INDEX_BITS, PAYLOAD_INDEX_MASK,
    Nat.shiftLeft_eq]
  norm_num [and_fifteen]
  split <;> omega

theorem encode_payload_port_range (base_sport payload_index : Nat) (hb : base_sport < 65536) :
    49152 ≤ encode_payload_port base_sport payload_index ∧
      encode_payload_port base_sport payload_index ≤ 65535 := by
  rw [encode_payload_port_eq]
  have hm : payload_index % 16 < 16 := Nat.mod_lt _ (by norm_num)
  split
  · have : base_sport % 16384 < 16384 := Nat.mod_lt _ (by norm_num)
    omega
  · omega

/-- C5: a traceroute-encoded source port `40960 + ttl` (ttl ∈ [1,255]) never
equals a payload-encoded source port, payload-encoded ports lie in
[49152, 65535], and both encodings lie in [1024, 65535]. -/
theorem trace_and_payload_ports_disjoint (ttl payload_index base_sport : Nat)
    (h1 : 1 ≤ ttl) (h2 : ttl ≤ 255) (hidx : payload_index ≤ 15) (hb : base_sport < 65536) :
    TRACE_PORT_BASE + ttl ≠ encode_payload_port base_sport payload_index ∧
      (49152 ≤ encode_payload_port base_sport payload_index ∧
        encode_payload_port base_sport payload_index ≤ 65535) ∧
      (1024 ≤ TRACE_PORT_BASE + ttl ∧ TRACE_PORT_BASE + ttl ≤ 65535) := by
  have hr := encode_payload_port_range base_sport payload_index hb
  refine ⟨?_, hr, ?_⟩
  · unfold TRACE_PORT_BASE
    omega
  · unfold TRACE_PORT_BASE
    omega

theorem trace_and_payload_ports_disjoint_witness :
    TRACE_PORT_BASE + 7 ≠ encode_payload_port 1234 5 ∧
      (49152 ≤ encode_payload_port 1234 5 ∧ encode_payload_port 1234 5 ≤ 65535) ∧
      (1024 ≤ TRACE_PORT_BASE + 7 ∧ TRACE_PORT_BASE + 7 ≤ 65535) :=
  trace_and_payload_ports_disjoint 7 5 1234 (by decide) (by decide) (by decide) (by decide)

/-- C6: decoding the source port recovers the payload index:
`decode_payload_index (encode_payload_port b idx) = idx` for `idx ∈ [0,15]`. -/
theorem decode_encode_payload_index (base_sport payload_index : Nat)
    (hb : base_sport < 65536) (hidx : payload_index ≤ 15) :
    decode_payload_index (encode_payload_port base_sport payload_index) = payload_index := by
  rw [encode_payload_port_eq]
  have hm : payload_index % 16 = payload_index := Nat.mod_eq_of_lt (by omega)
  simp only [decode_payload_index, PAYLOAD_PORT_BASE, PAYLOAD_INDEX_MASK, PAYLOAD_INDEX_BITS,
    Nat.shiftLeft_eq]
  norm_num [and_fifteen]
  split <;> split <;> omega

theorem decode_encode_payload_index_witness :
    decode_payload_index (encode_payload_port 443 9) = 9 :=
  decode_encode_payload_index 443 9 (by decide) (by decide)

/-! ### Binary banner protocol detection — src/scan_progs/banner_parse.c

`detect_banner_protocol(buf, len)`: the buffer is a `List Nat` of bytes;
`buf[i]` reads become `buf.getD i 0` (the default is never reached because
every read is guarded by a length test, exactly as in the C). -/

inductive banner_proto_t : Type
  | UNKNOWN
  | DNS
  | TLS
  | RPC
  | HEX_FALLBACK
deriving DecidableEq

/-- `detect_banner_protocol` (banner_parse.c lines 68-108).  Constants:
`TLS_CONTENT_HANDSHAKE = 0x16 = 22`, `TLS_VERSION_MAJOR = 0x03`,
`RPC_RM_LAST_FRAG = 0x80000000 = 2147483648`, `RPC_MSG_TYPE_REPLY = 1`,
`DNS_QR_BIT = 0x80 = 128`. -/
def detect_banner_protocol (buf : List Nat) : banner_proto_t :=
  if buf.length < 4 then .UNKNOWN
  else if 5 ≤ buf.length ∧ buf.getD 0 0 = 22 ∧ buf.getD 1 0 = 3 ∧ buf.getD 2 0 ≤ 4 then .TLS
  else if 12 ≤ buf.length ∧
      ((buf.getD 0 0 <<< 24 ||| buf.getD 1 0 <<< 16 ||| buf.getD 2 0 <<< 8 ||| buf.getD 3 0)
        &&& 2147483648 ≠ 0) ∧
      (buf.getD 8 0 <<< 24 ||| buf.getD 9 0 <<< 16 ||| buf.getD 10 0 <<< 8 ||| buf.getD 11 0) = 1
    then .RPC
  else if 6 ≤ buf.length ∧
      0 < (buf.getD 0 0 <<< 8 ||| buf.getD 1 0) ∧
      (buf.getD 0 0 <<< 8 ||| buf.getD 1 0) ≤ buf.length - 2 ∧
      (buf.getD 4 0 &&& 128 ≠ 0)
    then .DNS
  else .UNKNOWN

theorem getD_byte_lt :
    ∀ (buf : List Nat), (∀ b ∈ buf, b < 256) → ∀ i, buf.getD i 0 < 256
  | [], _, i => by simp [List.getD]
  | b :: bs, h, 0 => by simpa using h b (by simp)
  | b :: bs, h, (i + 1) => by
      simpa using getD_byte_lt bs (fun x hx => h x (List.mem_cons_of_mem b hx)) i

/-- C2 counterexample: the buffer `16 03 05 00 00` has `buf[0] = 0x16` and
`buf[1] = 0x03`, yet `detect_banner_protocol` does not return TLS (the code
additionally requires `buf[2] <= 0x04`), refuting the claimed
"TLS iff buf[0] = 0x16 and buf[1] = 0x03". -/
theorem detect_banner_protocol_claim_false :
    ([22, 3, 5, 0, 0] : List Nat).getD 0 0 = 22 ∧
      ([22, 3, 5, 0, 0] : List Nat).getD 1 0 = 3 ∧
      detect_banner_protocol [22, 3, 5, 0, 0] ≠ banner_proto_t.TLS := by
  decide

/-- C2 (amended): for every byte buffer, `detect_banner_protocol` returns
TLS iff `len ≥ 5`, `buf[0] = 0x16`, `buf[1] = 0x03` and `buf[2] ≤ 0x04`;
otherwise RPC iff `len ≥ 12`, the record mark's most significant bit is set
(`buf[0] ≥ 0x80`) and the 32-bit message type at offset 8 equals 1;
otherwise DNS iff `len ≥ 6`, the 16-bit length prefix `256*buf[0]+buf[1]`
is in `[1, len-2]` and the QR bit is set (`buf[4] ≥ 0x80`); and UNKNOWN
otherwise. -/
theorem detect_banner_protocol_characterization (buf : List Nat)
    (hbytes : ∀ b ∈ buf, b < 256) :
    (detect_banner_protocol buf = .TLS ↔
      (5 ≤ buf.length ∧ buf.getD 0 0 = 22 ∧ buf.getD 1 0 = 3 ∧ buf.getD 2 0 ≤ 4)) ∧
    (detect_banner_protocol buf = .RPC ↔
      (¬(5 ≤ buf.length ∧ buf.getD 0 0 = 22 ∧ buf.getD 1 0 = 3 ∧ buf.getD 2 0 ≤ 4) ∧
        12 ≤ buf.length ∧ 128 ≤ buf.getD 0 0 ∧
        buf.getD 8 0 = 0 ∧ buf.getD 9 0 = 0 ∧ buf.getD 10 0 = 0 ∧ buf.getD 11 0 = 1)) ∧
    (detect_banner_protocol buf = .DNS ↔
      (¬(5 ≤ buf.length ∧ buf.getD 0 0 = 22 ∧ buf.getD 1 0 = 3 ∧ buf.getD 2 0 ≤ 4) ∧
        ¬(12 ≤ buf.length ∧ 128 ≤ buf.getD 0 0 ∧
          buf.getD 8 0 = 0 ∧ buf.getD 9 0 = 0 ∧ buf.getD 10 0 = 0 ∧ buf.getD 11 0 = 1) ∧
        6 ≤ buf.length ∧ 1 ≤ 256 * buf.getD 0 0 + buf.getD 1 0 ∧
        256 * buf.getD 0 0 + buf.getD 1 0 ≤ buf.length - 2 ∧ 128 ≤ buf.getD 4 0)) ∧
    (detect_banner_protocol buf = .UNKNOWN ↔
      (¬(5 ≤ buf.length ∧ buf.getD 0 0 = 22 ∧ buf.getD 1 0 = 3 ∧ buf.getD 2 0 ≤ 4) ∧
        ¬(12 ≤ buf.length ∧ 128 ≤ buf.getD 0 0 ∧
          buf.getD 8 0 = 0 ∧ buf.getD 9 0 = 0 ∧ buf.getD 10 0 = 0 ∧ buf.getD 11 0 = 1) ∧
        ¬(6 ≤ buf.length ∧ 1 ≤ 256 * buf.getD 0 0 + buf.getD 1 0 ∧
          256 * buf.getD 0 0 + buf.getD 1 0 ≤ buf.length - 2 ∧ 128 ≤ buf.getD 4 0))) := by
  have hb0 := getD_byte_lt buf hbytes 0
  have hb1 := getD_byte_lt buf hbytes 1
  have hb2 := getD_byte_lt buf hbytes 2
  have hb3 := getD_byte_lt buf hbytes 3
  have hb4 := getD_byte_lt buf hbytes 4
  have hb8 := getD_byte_lt buf hbytes 8
  have hb9 := getD_byte_lt buf hbytes 9
  have hb10 := getD_byte_lt buf hbytes 10
  have hb11 := getD_byte_lt buf hbytes 11
  have hrm : (((buf.getD 0 0 <<< 24 ||| buf.getD 1 0 <<< 16 ||| buf.getD 2 0 <<< 8 |||
      buf.getD 3 0) &&& 2147483648 ≠ 0)) ↔ 128 ≤ buf.getD 0 0 :=
    and_high_bit _ _ _ _ hb0 hb1 hb2 hb3
  have hmsg : (buf.getD 8 0 <<< 24 ||| buf.getD 9 0 <<< 16 ||| buf.getD 10 0 <<< 8 |||
      buf.getD 11 0) = buf.getD 8 0 * 2 ^ 24 + buf.getD 9 0 * 2 ^ 16 +
        buf.getD 10 0 * 2 ^ 8 + buf.getD 11 0 :=
    byte_or4 _ _ _ _ hb9 hb10 hb11
  have hmsg1 : ((buf.getD 8 0 <<< 24 ||| buf.getD 9 0 <<< 16 ||| buf.getD 10 0 <<< 8 |||
      buf.getD 11 0) = 1) ↔
      (buf.getD 8 0 = 0 ∧ buf.getD 9 0 = 0 ∧ buf.getD 10 0 = 0 ∧ buf.getD 11 0 = 1) := by
    rw [hmsg]
    omega
  have hdns : (buf.getD 0 0 <<< 8 ||| buf.getD 1 0) = 256 * buf.getD 0 0 + buf.getD 1 0 := by
    have := byte_or2 (buf.getD 0 0) (buf.getD 1 0) hb1
    omega
  have hqr : (buf.getD 4 0 &&& 128 ≠ 0) ↔ 128 ≤ buf.getD 4 0 := byte_and_128 _ hb4
  unfold detect_banner_protocol
  split_ifs with hlen htls hrpc hdnsc
  · refine ⟨iff_of_false (by decide) ?_, iff_of_false (by decide) ?_,
      iff_of_false (by decide) ?_, iff_of_true rfl ⟨?_, ?_, ?_⟩⟩
    · intro h; omega
    · intro h; omega
    · intro h; omega
    · intro h; omega
    · intro h; omega
    · intro h; omega
  · exact ⟨iff_of_true rfl htls, iff_of_false (by decide) (fun h => h.1 htls),
      iff_of_false (by decide) (fun h => h.1 htls),
      iff_of_false (by decide) (fun h => h.1 htls)⟩
  · rw [hrm, hmsg1] at hrpc
    exact ⟨iff_of_false (by decide) htls, iff_of_true rfl ⟨htls, hrpc⟩,
      iff_of_false (by decide) (fun h => h.2.1 hrpc),
      iff_of_false (by decide) (fun h => h.2.1 hrpc)⟩
  · rw [hrm, hmsg1] at hrpc
    rw [hdns, hqr] at hdnsc
    obtain ⟨hd1, hd2, hd3, hd4⟩ := hdnsc
    exact ⟨iff_of_false (by decide) htls, iff_of_false (by decide) (fun h => hrpc h.2),
      iff_of_true rfl ⟨htls, hrpc, hd1, by omega, hd3, hd4⟩,
      iff_of_false (by decide) (fun h => h.2.2 ⟨hd1, by omega, hd3, hd4⟩)⟩
  · rw [hrm, hmsg1] at hrpc
    rw [hdns, hqr] at hdnsc
    refine ⟨iff_of_false (by decide) htls, iff_of_false (by decide) (fun h => hrpc h.2),
      iff_of_false (by decide) ?_, iff_of_true rfl ⟨htls, hrpc, ?_⟩⟩
    · intro h
      obtain ⟨h1, h2, h3, h4, h5, h6⟩ := h
      exact hdnsc ⟨h3, by omega, h5, h6⟩
    · intro h
      obtain ⟨h1, h2, h3, h4⟩ := h
      exact hdnsc ⟨h1, by omega, h3, h4⟩

theorem detect_banner_protocol_characterization_witness :
    detect_banner_protocol
      [0, 29, 18, 52, 129, 128, 0, 1, 0, 1, 0, 0, 0, 0, 5, 108, 111, 99, 97, 108,
        0, 0, 1, 0, 1, 192, 12, 0, 1, 0, 1] = banner_proto_t.DNS := by
  have h := (detect_banner_protocol_characterization
    [0, 29, 18, 52, 129, 128, 0, 1, 0, 1, 0, 0, 0, 0, 5, 108, 111, 99, 97, 108,
      0, 0, 1, 0, 1, 192, 12, 0, 1, 0, 1] (by decide)).2.2.1
  exact h.mpr (by decide)

/-! ### Report keys and duplicate suppression — src/scan_progs/report.c -/

/-- The 16-bit fold of `send_addr` in `get_ipreport_key`:
`(uint16_t)((shost >> 16) ^ (shost & 0xFFFF))`. -/
def cshost_fold (shost : Nat) : Nat :=
  ((shost >>> 16) ^^^ (shost &&& 65535)) % 65536

/-- `get_ipreport_key(dhost, dport, shost)` (report.c lines 1039-1055).  The
union puts `cshost` in bits 0-15, `dport` in bits 16-31 and `dhost` in bits
32-63 of the 64-bit key (little-endian layout of the packed struct; `dport`
is `uint16_t`, `dhost` and `shost` are `uint32_t`). -/
def get_ipreport_key (dhost dport shost : Nat) : Nat :=
  cshost_fold shost + (dport % 65536) * 2 ^ 16 + (dhost % 2 ^ 32) * 2 ^ 32

/-- `get_arpreport_key(dhost, dmac)` (report.c lines 1057-1073): the low
32 bits hold the folded MAC (`cmac[0] = mac0^mac1`, `cmac[1] = mac3^mac2`,
`cmac[2] = mac4`, `cmac[3] = mac5`, little-endian), the high 32 bits hold
the IPv4 address, which the struct comment documents as "IP for sorting". -/
def fold_mac (m0 m1 m2 m3 m4 m5 : Nat) : Nat :=
  (m0 ^^^ m1) + (m3 ^^^ m2) * 2 ^ 8 + m4 * 2 ^ 16 + m5 * 2 ^ 24

def get_arpreport_key (dhost m0 m1 m2 m3 m4 m5 : Nat) : Nat :=
  fold_mac m0 m1 m2 m3 m4 m5 + (dhost % 2 ^ 32) * 2 ^ 32

theorem fold_mac_lt (m0 m1 m2 m3 m4 m5 : Nat)
    (h0 : m0 < 256) (h1 : m1 < 256) (h2 : m2 < 256) (h3 : m3 < 256)
    (h4 : m4 < 256) (h5 : m5 < 256) :
    fold_mac m0 m1 m2 m3 m4 m5 < 2 ^ 32 := by
  have e01 : m0 ^^^ m1 < 2 ^ 8 := Nat.xor_lt_two_pow h0 h1
  have e32 : m3 ^^^ m2 < 2 ^ 8 := Nat.xor_lt_two_pow h3 h2
  unfold fold_mac
  omega

/-- C4 counterexample: two ARP reports with the same IPv4 address
(192.168.0.1) but different MACs have strictly ordered keys while their IP
addresses are not strictly ordered, refuting
"key(r1) < key(r2) iff ipaddr(r1) < ipaddr(r2)". -/
theorem get_arpreport_key_claim_false :
    get_arpreport_key 3232235521 0 0 0 0 0 0 < get_arpreport_key 3232235521 0 0 0 0 0 1 ∧
      ¬((3232235521 : Nat) < 3232235521) := by
  constructor
  · show fold_mac 0 0 0 0 0 0 + (3232235521 % 2 ^ 32) * 2 ^ 32 <
      fold_mac 0 0 0 0 0 1 + (3232235521 % 2 ^ 32) * 2 ^ 32
    have h1 : fold_mac 0 0 0 0 0 0 = 0 := by decide
    have h2 : fold_mac 0 0 0 0 0 1 = 16777216 := by decide
    omega
  · omega

/-- C4 (amended): ARP-report keys sort lexicographically by
(IPv4 address, folded MAC): `key(r1) < key(r2)` iff `ip(r1) < ip(r2)`, or
`ip(r1) = ip(r2)` and the folded MAC of `r1` is smaller.  In particular a
strictly smaller IP gives a strictly smaller key, so walking the tree in
key order emits ARP reports sorted by IP, with equal-IP reports tied-broken
by folded MAC rather than by arrival. -/
theorem get_arpreport_key_orders_by_ip_then_mac
    (ip1 ip2 a0 a1 a2 a3 a4 a5 b0 b1 b2 b3 b4 b5 : Nat)
    (hip1 : ip1 < 2 ^ 32) (hip2 : ip2 < 2 ^ 32)
    (ha0 : a0 < 256) (ha1 : a1 < 256) (ha2 : a2 < 256) (ha3 : a3 < 256)
    (ha4 : a4 < 256) (ha5 : a5 < 256)
    (hb0 : b0 < 256) (hb1 : b1 < 256) (hb2 : b2 < 256) (hb3 : b3 < 256)
    (hb4 : b4 < 256) (hb5 : b5 < 256) :
    get_arpreport_key ip1 a0 a1 a2 a3 a4 a5 < get_arpreport_key ip2 b0 b1 b2 b3 b4 b5 ↔
      (ip1 < ip2 ∨ (ip1 = ip2 ∧
        fold_mac a0 a1 a2 a3 a4 a5 < fold_mac b0 b1 b2 b3 b4 b5)) := by
  have hfa := fold_mac_lt a0 a1 a2 a3 a4 a5 ha0 ha1 ha2 ha3 ha4 ha5
  have hfb := fold_mac_lt b0 b1 b2 b3 b4 b5 hb0 hb1 hb2 hb3 hb4 hb5
  unfold get_arpreport_key
  have h1 : ip1 % 2 ^ 32 = ip1 := Nat.mod_eq_of_lt hip1
  have h2 : ip2 % 2 ^ 32 = ip2 := Nat.mod_eq_of_lt hip2
  rw [h1, h2]
  constructor
  · intro h
    rcases Nat.lt_trichotomy ip1 ip2 with hlt | heq | hgt
    · exact Or.inl hlt
    · subst heq
      exact Or.inr ⟨rfl, by omega⟩
    · exfalso
      have : ip2 + 1 ≤ ip1 := hgt
      nlinarith
  · rintro (hlt | ⟨rfl, hmac⟩)
    · have : ip1 + 1 ≤ ip2 := hlt
      nlinarith
    · omega

theorem get_arpreport_key_orders_by_ip_then_mac_witness :
    get_arpreport_key 167772161 17 34 51 68 85 102 <
        get_arpreport_key 167772162 1 2 3 4 5 6 ↔
      ((167772161 : Nat) < 167772162 ∨ ((167772161 : Nat) = 167772162 ∧
        fold_mac 17 34 51 68 85 102 < fold_mac 1 2 3 4 5 6)) :=
  get_arpreport_key_orders_by_ip_then_mac 167772161 167772162 17 34 51 68 85 102 1 2 3 4 5 6
    (by decide) (by decide) (by decide) (by decide) (by decide) (by decide)
    (by decide) (by decide) (by decide) (by decide) (by decide) (by decide)
    (by decide) (by decide)

/-! ### `report_add` duplicate suppression — src/scan_progs/report.c lines 215-373

The red-black tree keyed by `get_ipreport_key` is modelled as the
insertion-ordered list of inserted reports; `rbfind` is lookup by key.
`GET_PROCDUPS()` is disabled (no `-c`), matching the claim's scope: a
duplicate key is discarded.  `GET_IMMEDIATE()` only changes when a report
is printed (at insertion time instead of at the final tree walk), not which
reports are inserted, so emission is the insertion list either way. -/

def TH_FIN : Nat := 1

def TH_SYN : Nat := 2

def TH_RST : Nat := 4

def TH_PSH : Nat := 8

def TH_ACK : Nat := 16

def TH_URG : Nat := 32

/-- `port_open(proto, type, subtype)` (report.c lines 964-980);
`IPPROTO_TCP = 6`, `IPPROTO_UDP = 17`. -/
def port_open (proto ptype _subtype : Nat) : Bool :=
  if proto = 6 then decide ((ptype &&& (TH_SYN ||| TH_ACK)) = (TH_SYN ||| TH_ACK))
  else if proto = 17 then true
  else false

structure ip_report_t where
  host_addr : Nat
  sport : Nat
  dport : Nat
  proto : Nat
  rtype : Nat
  subtype : Nat
  send_addr : Nat
deriving DecidableEq

def report_key (r : ip_report_t) : Nat :=
  get_ipreport_key r.host_addr r.sport r.send_addr

/-- One `report_add` call on an IP report, with dup-processing disabled
(`GET_PROCDUPS() = 0`).  `procerrors` is `GET_PROCERRORS()`. -/
def report_add_ip (procerrors : Bool) (tree : List ip_report_t) (r : ip_report_t) :
    List ip_report_t :=
  if port_open r.proto r.rtype r.subtype then
    if tree.any (fun t => report_key t = report_key r) then tree
    else tree ++ [r]
  else if procerrors then
    if tree.any (fun t => report_key t = report_key r) then tree
    else tree ++ [r]
  else tree

/-- The tree contents after a sequence of `report_add` calls starting from
the empty tree. -/
def report_tree (procerrors : Bool) (rs : List ip_report_t) : List ip_report_t :=
  rs.foldl (report_add_ip procerrors) []

/-- First-per-key sublist: the reports `report_add` keeps, given the set of
keys already in the tree. -/
def firstPerKey (seen : List Nat) : List ip_report_t → List ip_report_t
  | [] => []
  | r :: rest =>
      if report_key r ∈ seen then firstPerKey seen rest
      else r :: firstPerKey (report_key r :: seen) rest

theorem firstPerKey_nil (seen : List Nat) : firstPerKey seen [] = [] := rfl

theorem firstPerKey_cons (seen : List Nat) (r : ip_report_t) (rest : List ip_report_t) :
    firstPerKey seen (r :: rest) =
      if report_key r ∈ seen then firstPerKey seen rest
      else r :: firstPerKey (report_key r :: seen) rest := rfl

theorem firstPerKey_congr (rs : List ip_report_t) :
    ∀ (s1 s2 : List Nat), (∀ k, k ∈ s1 ↔ k ∈ s2) →
      firstPerKey s1 rs = firstPerKey s2 rs := by
  induction rs with
  | nil => intro s1 s2 _; rfl
  | cons r rest ih =>
      intro s1 s2 h
      rw [firstPerKey_cons, firstPerKey_cons]
      by_cases hm : report_key r ∈ s1
      · rw [if_pos hm, if_pos ((h _).mp hm)]
        exact ih s1 s2 h
      · rw [if_neg hm, if_neg (fun hc => hm ((h _).mpr hc))]
        refine congrArg _ (ih _ _ ?_)
        intro k
        simp only [List.mem_cons]
        exact or_congr Iff.rfl (h k)

theorem report_tree_go (procerrors : Bool) (rs : List ip_report_t)
    (hopen : ∀ r ∈ rs, port_open r.proto r.rtype r.subtype = true) :
    ∀ acc : List ip_report_t,
      rs.foldl (report_add_ip procerrors) acc = acc ++ firstPerKey (acc.map report_key) rs := by
  induction rs with
  | nil => intro acc; simp [firstPerKey_nil]
  | cons r rest ih =>
      intro acc
      have hr : port_open r.proto r.rtype r.subtype = true := hopen r (by simp)
      have hrest : ∀ x ∈ rest, port_open x.proto x.rtype x.subtype = true :=
        fun x hx => hopen x (List.mem_cons_of_mem r hx)
      simp only [List.foldl_cons]
      by_cases hmem : report_key r ∈ acc.map report_key
      · have hany : acc.any (fun t => report_key t = report_key r) = true := by
          simp only [List.any_eq_true, decide_eq_true_eq]
          obtain ⟨t, ht, hk⟩ := List.mem_map.mp hmem
          exact ⟨t, ht, hk⟩
        have hstep : report_add_ip procerrors acc r = acc := by
          simp [report_add_ip, hr, hany]
        rw [hstep, ih hrest acc, firstPerKey_cons, if_pos hmem]
      · have hany : acc.any (fun t => report_key t = report_key r) = false := by
          simp only [List.any_eq_false, decide_eq_true_eq]
          intro t ht hk
          exact hmem (List.mem_map.mpr ⟨t, ht, hk⟩)
        have hstep : report_add_ip procerrors acc r = acc ++ [r] := by
          simp [report_add_ip, hr, hany]
        rw [hstep, ih hrest (acc ++ [r]), firstPerKey_cons, if_neg hmem]
        have hmapeq : (acc ++ [r]).map report_key = acc.map report_key ++ [report_key r] := by
          simp
        rw [hmapeq]
        rw [firstPerKey_congr rest (acc.map report_key ++ [report_key r])
          (report_key r :: acc.map report_key) (by intro k; simp [or_comm])]
        simp

theorem firstPerKey_countP (k : Nat) :
    ∀ (rs : List ip_report_t) (seen : List Nat),
      (firstPerKey seen rs).countP (fun t => report_key t = k) =
        if k ∈ seen then 0
        else if rs.any (fun r => report_key r = k) then 1 else 0 := by
  intro rs
  induction rs with
  | nil =>
      intro seen
      rw [firstPerKey_nil, List.countP_nil]
      by_cases hks : k ∈ seen <;> simp [hks]
  | cons r rest ih =>
      intro seen
      rw [firstPerKey_cons]
      by_cases hm : report_key r ∈ seen
      · rw [if_pos hm, ih seen]
        by_cases hks : k ∈ seen
        · simp [hks]
        · have hkr : ¬(report_key r = k) := fun h => hks (h ▸ hm)
          simp [hks, hkr]
      · rw [if_neg hm]
        by_cases hkr : report_key r = k
        · subst hkr
          rw [List.countP_cons_of_pos _ _ (by simp), ih (report_key r :: seen)]
          by_cases hks : report_key r ∈ seen
          · exact absurd hks hm
          · simp [hks]
        · rw [List.countP_cons_of_neg _ _ (by simp [hkr]), ih (report_key r :: seen)]
          by_cases hks : k ∈ seen
          · simp [hks]
          · simp [hks, hkr, Ne.symm hkr]

theorem firstPerKey_find (k : Nat) :
    ∀ (rs : List ip_report_t) (seen : List Nat), k ∉ seen →
      (firstPerKey seen rs).find? (fun t => report_key t = k) =
        rs.find? (fun t => report_key t = k) := by
  intro rs
  induction rs with
  | nil => intro seen _; simp [firstPerKey_nil]
  | cons r rest ih =>
      intro seen hks
      rw [firstPerKey_cons]
      by_cases hm : report_key r ∈ seen
      · rw [if_pos hm]
        have hkr : ¬(report_key r = k) := fun h => hks (h ▸ hm)
        rw [List.find?_cons_of_neg _ (by simp [hkr])]
        exact ih seen hks
      · rw [if_neg hm]
        by_cases hkr : report_key r = k
        · rw [List.find?_cons_of_pos _ (by simp [hkr]), List.find?_cons_of_pos _ (by simp [hkr])]
        · rw [List.find?_cons_of_neg _ (by simp [hkr]), List.find?_cons_of_neg _ (by simp [hkr])]
          refine ih _ ?_
          intro hc
          rcases List.mem_cons.mp hc with h | h
          · exact hkr h.symm
          · exact hks h

theorem firstPerKey_subset :
    ∀ (rs : List ip_report_t) (seen : List Nat) (t : ip_report_t),
      t ∈ firstPerKey seen rs → t ∈ rs := by
  intro rs
  induction rs with
  | nil => intro seen t h; simpa [firstPerKey_nil] using h
  | cons r rest ih =>
      intro seen t h
      rw [firstPerKey_cons] at h
      by_cases hm : report_key r ∈ seen
      · rw [if_pos hm] at h
        exact List.mem_cons_of_mem r (ih seen t h)
      · rw [if_neg hm] at h
        rcases List.mem_cons.mp h with rfl | hmem
        · exact List.mem_cons_self t rest
        · exact List.mem_cons_of_mem r (ih _ t hmem)

/-- C3: with dup-processing disabled, for any sequence of response reports
(reports passing `port_open`, i.e. SYN-ACK or UDP responses) the aggregator
keeps exactly one report per 64-bit key `get_ipreport_key(host_addr, sport,
send_addr)`: every key occurring in the input occurs exactly once in the
tree, the kept report is the first input report with that key (later
reports with the same key are discarded), and nothing else is inserted.
Note the key folds `send_addr` through a 16-bit hash, so two distinct
`send_addr` values that collide under the fold count as the same key. -/
theorem report_add_one_report_per_key (procerrors : Bool) (rs : List ip_report_t)
    (hopen : ∀ r ∈ rs, port_open r.proto r.rtype r.subtype = true) :
    (∀ r ∈ rs, (report_tree procerrors rs).countP
        (fun t => report_key t = report_key r) = 1) ∧
      (∀ r ∈ rs, (report_tree procerrors rs).find? (fun t => report_key t = report_key r) =
        rs.find? (fun t => report_key t = report_key r)) ∧
      (∀ t ∈ report_tree procerrors rs, t ∈ rs) := by
  have htree : report_tree procerrors rs = firstPerKey [] rs := by
    unfold report_tree
    rw [report_tree_go procerrors rs hopen []]
    simp
  refine ⟨?_, ?_, ?_⟩
  · intro r hr
    rw [htree, firstPerKey_countP]
    rw [if_neg (List.not_mem_nil _)]
    rw [if_pos]
    simp only [List.any_eq_true, decide_eq_true_eq]
    exact ⟨r, hr, rfl⟩
  · intro r hr
    rw [htree]
    exact firstPerKey_find (report_key r) rs [] (List.not_mem_nil _)
  · intro t ht
    rw [htree] at ht
    exact firstPerKey_subset rs [] t ht

theorem report_add_one_report_per_key_witness :
    (∀ r ∈ ([⟨167772161, 80, 40000, 6, 18, 0, 3232235777⟩,
        ⟨167772161, 80, 40000, 6, 18, 0, 3232235777⟩] : List ip_report_t),
      (report_tree false [⟨167772161, 80, 40000, 6, 18, 0, 3232235777⟩,
        ⟨167772161, 80, 40000, 6, 18, 0, 3232235777⟩]).countP
        (fun t => report_key t = report_key r) = 1) ∧
      (∀ r ∈ ([⟨167772161, 80, 40000, 6, 18, 0, 3232235777⟩,
          ⟨167772161, 80, 40000, 6, 18, 0, 3232235777⟩] : List ip_report_t),
        (report_tree false [⟨167772161, 80, 40000, 6, 18, 0, 3232235777⟩,
          ⟨167772161, 80, 40000, 6, 18, 0, 3232235777⟩]).find?
            (fun t => report_key t = report_key r) =
          ([⟨167772161, 80, 40000, 6, 18, 0, 3232235777⟩,
            ⟨167772161, 80, 40000, 6, 18, 0, 3232235777⟩] : List ip_report_t).find?
            (fun t => report_key t = report_key r)) ∧
      (∀ t ∈ report_tree false [⟨167772161, 80, 40000, 6, 18, 0, 3232235777⟩,
          ⟨167772161, 80, 40000, 6, 18, 0, 3232235777⟩],
        t ∈ ([⟨167772161, 80, 40000, 6, 18, 0, 3232235777⟩,
          ⟨167772161, 80, 40000, 6, 18, 0, 3232235777⟩] : List ip_report_t)) :=
  report_add_one_report_per_key false
    [⟨167772161, 80, 40000, 6, 18, 0, 3232235777⟩,
      ⟨167772161, 80, 40000, 6, 18, 0, 3232235777⟩]
    (by decide)

/-! ### Phase filter (ARP cache) — src/scan_progs/phase_filter.c

The static `arp_cache` hash table is `Option (List Nat)`: `none` is the
never-initialized NULL handle, `some s` holds the stored IPv4 keys (entry
data is the MAC, which `phase_filter_check` never reads, so only the key
set is tracked; a duplicate store updates the MAC in place and inserts no
new key). -/

inductive pf_op : Type
  | init
  | store (ipaddr : Nat) (hwaddr : Option (List Nat))
deriving DecidableEq

def pf_op.isInit : pf_op → Bool
  | .init => true
  | .store _ _ => false

/-- `phase_filter_init` (lines 39-55): allocates the table if needed;
already-initialized is a no-op success. -/
def phase_filter_init (cache : Option (List Nat)) : Option (List Nat) :=
  match cache with
  | none => some []
  | some s => some s

/-- `phase_filter_store(ipaddr, hwaddr)` (lines 57-96): fails (returns -1,
cache unchanged) when the cache is uninitialized or `hwaddr` is NULL;
otherwise inserts the IP if absent (a present IP only has its MAC
updated). -/
def phase_filter_store (cache : Option (List Nat)) (ipaddr : Nat)
    (hwaddr : Option (List Nat)) : Option (List Nat) :=
  match cache, hwaddr with
  | none, _ => none
  | some s, none => some s
  | some s, some _ => if ipaddr ∈ s then some s else some (s ++ [ipaddr])

/-- `phase_filter_check(ipaddr)` (lines 98-110): 1 when the cache was never
initialized, else 1 iff the IP was stored. -/
def phase_filter_check (cache : Option (List Nat)) (ipaddr : Nat) : Nat :=
  match cache with
  | none => 1
  | some s => if ipaddr ∈ s then 1 else 0

def pf_apply (cache : Option (List Nat)) (op : pf_op) : Option (List Nat) :=
  match op with
  | .init => phase_filter_init cache
  | .store ip hw => phase_filter_store cache ip hw

/-- The cache state after a sequence of init/store calls from process
start (`arp_cache = NULL`). -/
def pf_run (ops : List pf_op) : Option (List Nat) :=
  ops.foldl pf_apply none

/-- The IPs successfully stored by a sequence of calls (`inited` tracks
whether `phase_filter_init` has already run: stores before it fail). -/
def pf_stored : Bool → List pf_op → List Nat
  | _, [] => []
  | _, .init :: rest => pf_stored true rest
  | inited, .store ip hw :: rest =>
      if inited ∧ hw.isSome then ip :: pf_stored inited rest else pf_stored inited rest

theorem pf_run_go (ops : List pf_op) :
    ∀ s : List Nat, ∃ s2, ops.foldl pf_apply (some s) = some s2 ∧
      ∀ ip, ip ∈ s2 ↔ (ip ∈ s ∨ ip ∈ pf_stored true ops) := by
  induction ops with
  | nil =>
      intro s
      exact ⟨s, rfl, fun ip => by simp [pf_stored]⟩
  | cons op rest ih =>
      intro s
      cases op with
      | init =>
          obtain ⟨s2, h1, h2⟩ := ih s
          refine ⟨s2, ?_, ?_⟩
          · simpa [pf_apply, phase_filter_init] using h1
          · intro ip
            rw [h2 ip]
            simp [pf_stored]
      | store ip0 hw =>
          cases hw with
          | none =>
              obtain ⟨s2, h1, h2⟩ := ih s
              refine ⟨s2, ?_, ?_⟩
              · simpa [pf_apply, phase_filter_store] using h1
              · intro ip
                rw [h2 ip]
                simp [pf_stored]
          | some mac =>
              by_cases hmem : ip0 ∈ s
              · obtain ⟨s2, h1, h2⟩ := ih s
                refine ⟨s2, ?_, ?_⟩
                · simpa [pf_apply, phase_filter_store, hmem] using h1
                · intro ip
                  rw [h2 ip]
                  constructor
                  · rintro (h | h)
                    · exact Or.inl h
                    · right
                      simp only [pf_stored, Option.isSome_some, and_true, if_pos trivial]
                      simp [h]
                  · rintro (h | h)
                    · exact Or.inl h
                    · simp only [pf_stored, Option.isSome_some, and_true] at h
                      rw [if_pos trivial] at h
                      rcases List.mem_cons.mp h with rfl | h
                      · exact Or.inl hmem
                      · exact Or.inr h
              · obtain ⟨s2, h1, h2⟩ := ih (s ++ [ip0])
                refine ⟨s2, ?_, ?_⟩
                · simpa [pf_apply, phase_filter_store, hmem] using h1
                · intro ip
                  rw [h2 ip]
                  simp only [pf_stored, Option.isSome_some, and_true, if_pos trivial,
                    List.mem_append, List.mem_cons, List.mem_singleton]
                  tauto

theorem pf_run_no_init (ops : List pf_op) (h : ∀ op ∈ ops, op.isInit = false) :
    pf_run ops = none := by
  unfold pf_run
  induction ops with
  | nil => rfl
  | cons op rest ih =>
      cases op with
      | init => exact absurd (h .init (by simp)) (by simp [pf_op.isInit])
      | store ip hw =>
          simp only [List.foldl_cons]
          have : pf_apply none (.store ip hw) = none := by
            simp [pf_apply, phase_filter_store]
          rw [this]
          exact ih (fun x hx => h x (List.mem_cons_of_mem _ hx))

theorem pf_run_with_init (ops : List pf_op) (h : ∃ op ∈ ops, op.isInit = true) :
    ∃ s2, pf_run ops = some s2 ∧ ∀ ip, ip ∈ s2 ↔ ip ∈ pf_stored false ops := by
  unfold pf_run
  induction ops with
  | nil => simp at h
  | cons op rest ih =>
      cases op with
      | init =>
          obtain ⟨s2, h1, h2⟩ := pf_run_go rest []
          refine ⟨s2, ?_, ?_⟩
          · simpa [pf_apply, phase_filter_init] using h1
          · intro ip
            rw [h2 ip]
            simp [pf_stored]
      | store ip0 hw =>
          have hrest : ∃ op ∈ rest, op.isInit = true := by
            obtain ⟨op, hop, hinit⟩ := h
            rcases List.mem_cons.mp hop with rfl | hmem
            · exact absurd hinit (by simp [pf_op.isInit])
            · exact ⟨op, hmem, hinit⟩
          obtain ⟨s2, h1, h2⟩ := ih hrest
          refine ⟨s2, ?_, ?_⟩
          · simp only [List.foldl_cons]
            have : pf_apply none (.store ip0 hw) = none := by
              simp [pf_apply, phase_filter_store]
            rw [this]
            exact h1
          · intro ip
            rw [h2 ip]
            simp [pf_stored]

/-- C10: `phase_filter_check` returns 1 for every address while the ARP
cache has never been initialized (every host passes the phase filter in
non-compound mode); once `phase_filter_init` has run, it returns 1 exactly
for the addresses successfully stored by `phase_filter_store` and 0 for
all others. -/
theorem phase_filter_check_characterization (ops : List pf_op) (ip : Nat) :
    ((∀ op ∈ ops, op.isInit = false) → phase_filter_check (pf_run ops) ip = 1) ∧
      ((∃ op ∈ ops, op.isInit = true) →
        (phase_filter_check (pf_run ops) ip = 1 ↔ ip ∈ pf_stored false ops)) := by
  constructor
  · intro h
    rw [pf_run_no_init ops h]
    rfl
  · intro h
    obtain ⟨s2, h1, h2⟩ := pf_run_with_init ops h
    rw [h1]
    show (if ip ∈ s2 then 1 else 0) = 1 ↔ ip ∈ pf_stored false ops
    by_cases hmem : ip ∈ s2
    · rw [if_pos hmem]
      exact ⟨fun _ => (h2 ip).mp hmem, fun _ => rfl⟩
    · rw [if_neg hmem]
      constructor
      · intro hc
        exact absurd hc (by norm_num)
      · intro hst
        exact absurd ((h2 ip).mpr hst) hmem

theorem phase_filter_check_characterization_witness :
    phase_filter_check (pf_run [pf_op.store 7 (some [1, 2, 3, 4, 5, 6])]) 7 = 1 ∧
      (phase_filter_check
        (pf_run [pf_op.init, pf_op.store 5 (some [1, 2, 3, 4, 5, 6])]) 5 = 1 ↔
        5 ∈ pf_stored false [pf_op.init, pf_op.store 5 (some [1, 2, 3, 4, 5, 6])]) :=
  ⟨(phase_filter_check_characterization [pf_op.store 7 (some [1, 2, 3, 4, 5, 6])] 7).1
      (by decide),
    (phase_filter_check_characterization
      [pf_op.init, pf_op.store 5 (some [1, 2, 3, 4, 5, 6])] 5).2
      (by decide)⟩

/-! ### Per-phase settings — src/scan_progs/scanopts.c lines 793-877 -/

structure scan_phase_t where
  mode : Nat
  tcphdrflgs : Nat
  send_opts : Nat
  recv_opts : Nat
  pps : Nat
  repeats : Nat
  recv_timeout : Nat
deriving DecidableEq

structure settings_t where
  phases : List scan_phase_t
  pps : Nat
  global_pps : Nat
  repeats : Nat
  global_repeats : Nat
  ss_mode : Nat
  ss_tcphdrflgs : Nat
  ss_recv_timeout : Nat
  global_recv_timeout : Nat
  send_opts : Nat
  recv_opts : Nat
deriving DecidableEq

/-- `load_phase_settings(phase_index)` (scanopts.c lines 798-877).
`S_SRC_OVERRIDE` and `L_USE_PROMISC` are bit masks defined in `settings.h`
(not among the sources here), so they are passed as parameters; the claim
does not depend on their values.  An invalid index returns -1 (`none`)
without touching the settings. -/
def load_phase_settings (S_SRC_OVERRIDE L_USE_PROMISC : Nat) (s : settings_t)
    (phase_index : Nat) : Option settings_t :=
  if h : phase_index < s.phases.length then
    let phase := s.phases.get ⟨phase_index, h⟩
    some { s with
      ss_mode := phase.mode
      ss_tcphdrflgs := phase.tcphdrflgs
      send_opts := phase.send_opts ||| (s.send_opts &&& S_SRC_OVERRIDE)
      recv_opts := phase.recv_opts ||| (s.recv_opts &&& L_USE_PROMISC)
      pps := if 0 < phase.pps then phase.pps else s.global_pps
      repeats := if 0 < phase.repeats then phase.repeats else s.global_repeats
      ss_recv_timeout := if 0 < phase.recv_timeout then phase.recv_timeout
        else s.global_recv_timeout }
  else none

/-- C8: for every valid phase index, `load_phase_settings` sets the active
pps, repeats and recv_timeout to the phase's per-phase value when that
value is non-zero, and to the corresponding global value (`global_pps`,
`global_repeats`, `global_recv_timeout`) when the per-phase value is
zero. -/
theorem load_phase_settings_overrides (mask1 mask2 : Nat) (s : settings_t)
    (i : Nat) (h : i < s.phases.length) :
    ∃ s2, load_phase_settings mask1 mask2 s i = some s2 ∧
      (((s.phases.get ⟨i, h⟩).pps ≠ 0 → s2.pps = (s.phases.get ⟨i, h⟩).pps) ∧
        ((s.phases.get ⟨i, h⟩).pps = 0 → s2.pps = s.global_pps)) ∧
      (((s.phases.get ⟨i, h⟩).repeats ≠ 0 → s2.repeats = (s.phases.get ⟨i, h⟩).repeats) ∧
        ((s.phases.get ⟨i, h⟩).repeats = 0 → s2.repeats = s.global_repeats)) ∧
      (((s.phases.get ⟨i, h⟩).recv_timeout ≠ 0 →
          s2.ss_recv_timeout = (s.phases.get ⟨i, h⟩).recv_timeout) ∧
        ((s.phases.get ⟨i, h⟩).recv_timeout = 0 →
          s2.ss_recv_timeout = s.global_recv_timeout)) := by
  refine ⟨_, by rw [load_phase_settings, dif_pos h], ?_, ?_, ?_⟩
  · constructor
    · intro hne
      dsimp only
      rw [if_pos (Nat.pos_of_ne_zero hne)]
    · intro heq
      dsimp only
      rw [heq]
      simp
  · constructor
    · intro hne
      dsimp only
      rw [if_pos (Nat.pos_of_ne_zero hne)]
    · intro heq
      dsimp only
      rw [heq]
      simp
  · constructor
    · intro hne
      dsimp only
      rw [if_pos (Nat.pos_of_ne_zero hne)]
    · intro heq
      dsimp only
      rw [heq]
      simp

theorem load_phase_settings_overrides_witness :
    ∃ s2, load_phase_settings 64 4 (settings_t.mk
        [scan_phase_t.mk 4 0 0 0 0 0 0, scan_phase_t.mk 1 2 0 0 300 0 7]
        100 100 2 2 0 0 5 5 0 0) 1 = some s2 ∧
      ((((settings_t.mk [scan_phase_t.mk 4 0 0 0 0 0 0, scan_phase_t.mk 1 2 0 0 300 0 7]
          100 100 2 2 0 0 5 5 0 0).phases.get ⟨1, by decide⟩).pps ≠ 0 →
        s2.pps = ((settings_t.mk [scan_phase_t.mk 4 0 0 0 0 0 0, scan_phase_t.mk 1 2 0 0 300 0 7]
          100 100 2 2 0 0 5 5 0 0).phases.get ⟨1, by decide⟩).pps) ∧
        (((settings_t.mk [scan_phase_t.mk 4 0 0 0 0 0 0, scan_phase_t.mk 1 2 0 0 300 0 7]
          100 100 2 2 0 0 5 5 0 0).phases.get ⟨1, by decide⟩).pps = 0 →
        s2.pps = (settings_t.mk [scan_phase_t.mk 4 0 0 0 0 0 0, scan_phase_t.mk 1 2 0 0 300 0 7]
          100 100 2 2 0 0 5 5 0 0).global_pps)) ∧
      ((((settings_t.mk [scan_phase_t.mk 4 0 0 0 0 0 0, scan_phase_t.mk 1 2 0 0 300 0 7]
          100 100 2 2 0 0 5 5 0 0).phases.get ⟨1, by decide⟩).repeats ≠ 0 →
        s2.repeats = ((settings_t.mk [scan_phase_t.mk 4 0 0 0 0 0 0,
          scan_phase_t.mk 1 2 0 0 300 0 7] 100 100 2 2 0 0 5 5 0 0).phases.get
            ⟨1, by decide⟩).repeats) ∧
        (((settings_t.mk [scan_phase_t.mk 4 0 0 0 0 0 0, scan_phase_t.mk 1 2 0 0 300 0 7]
          100 100 2 2 0 0 5 5 0 0).phases.get ⟨1, by decide⟩).repeats = 0 →
        s2.repeats = (settings_t.mk [scan_phase_t.mk 4 0 0 0 0 0 0,
          scan_phase_t.mk 1 2 0 0 300 0 7] 100 100 2 2 0 0 5 5 0 0).global_repeats)) ∧
      ((((settings_t.mk [scan_phase_t.mk 4 0 0 0 0 0 0, scan_phase_t.mk 1 2 0 0 300 0 7]
          100 100 2 2 0 0 5 5 0 0).phases.get ⟨1, by decide⟩).recv_timeout ≠ 0 →
        s2.ss_recv_timeout = ((settings_t.mk [scan_phase_t.mk 4 0 0 0 0 0 0,
          scan_phase_t.mk 1 2 0 0 300 0 7] 100 100 2 2 0 0 5 5 0 0).phases.get
            ⟨1, by decide⟩).recv_timeout) ∧
        (((settings_t.mk [scan_phase_t.mk 4 0 0 0 0 0 0, scan_phase_t.mk 1 2 0 0 300 0 7]
          100 100 2 2 0 0 5 5 0 0).phases.get ⟨1, by decide⟩).recv_timeout = 0 →
        s2.ss_recv_timeout = (settings_t.mk [scan_phase_t.mk 4 0 0 0 0 0 0,
          scan_phase_t.mk 1 2 0 0 300 0 7]
          100 100 2 2 0 0 5 5 0 0).global_recv_timeout)) :=
  load_phase_settings_overrides 64 4
    (settings_t.mk [scan_phase_t.mk 4 0 0 0 0 0 0, scan_phase_t.mk 1 2 0 0 300 0 7]
      100 100 2 2 0 0 5 5 0 0) 1 (by decide)

/-! ### Trace sessions — src/scan_progs/trace_session.c

`trace_session_to_path_report` (lines 139-182).  The C function takes a
session pointer and an output buffer and returns 1 or -1; here the pointer
is `Option trace_session_t` and the result is `Option trace_path_report_t`
(`none` = -1, `some rpt` = returns 1 filling `rpt`).  The 256-entry
`hops[]` array is a total function on TTL values. -/

def TRACE_SESSION_MAGIC : Nat := 1414677827

def TRACE_HOP_NONE : Nat := 0

def TRACE_HOP_RECV : Nat := 1

def TRACE_HOP_DEST : Nat := 2

def TRACE_PATH_MAGIC : Nat := 1414680660

def TRACE_PATH_MAX_HOPS : Nat := 64

structure trace_hop_t where
  router_addr : Nat
  ttl : Nat
  rtt_us : Nat
  flags : Nat

structure trace_session_t where
  magic : Nat
  target_addr : Nat
  target_port : Nat
  minttl : Nat
  maxttl : Nat
  curttl : Nat
  complete : Nat
  hops : Nat → trace_hop_t

structure trace_path_hop_t where
  router_addr : Nat
  hop_number : Nat
  rtt_us : Nat
  flags : Nat
deriving DecidableEq

structure trace_path_report_t where
  magic : Nat
  target_addr : Nat
  target_port : Nat
  hop_count : Nat
  complete : Nat
  hops : List trace_path_hop_t
deriving DecidableEq

/-- The four field assignments `rpt->hops[hop_idx] = ...` for one copied
hop: `hop_number = (uint8_t)j` is the TTL. -/
def mk_path_hop (ts : trace_session_t) (j : Nat) : trace_path_hop_t :=
  ⟨(ts.hops j).router_addr, j, (ts.hops j).rtt_us, (ts.hops j).flags⟩

/-- The copy loop of `trace_session_to_path_report`: iterate the TTLs in
send order, skip hops with `flags == TRACE_HOP_NONE`, stop once
`TRACE_PATH_MAX_HOPS` hops are copied (`hop_idx < TRACE_PATH_MAX_HOPS` is
part of the loop condition). -/
def trace_hops_loop (ts : trace_session_t) :
    List Nat → List trace_path_hop_t → List trace_path_hop_t
  | [], acc => acc
  | j :: js, acc =>
      if TRACE_PATH_MAX_HOPS ≤ acc.length then acc
      else if (ts.hops j).flags = TRACE_HOP_NONE then trace_hops_loop ts js acc
      else trace_hops_loop ts js (acc ++ [mk_path_hop ts j])

def trace_session_to_path_report (ots : Option trace_session_t) :
    Option trace_path_report_t :=
  match ots with
  | none => none
  | some ts =>
      if ts.magic ≠ TRACE_SESSION_MAGIC then none
      else
        let hops := trace_hops_loop ts (List.range' ts.minttl (ts.maxttl + 1 - ts.minttl)) []
        some ⟨TRACE_PATH_MAGIC, ts.target_addr, ts.target_port, hops.length, ts.complete, hops⟩

theorem trace_hops_loop_eq (ts : trace_session_t) :
    ∀ (js : List Nat) (acc : List trace_path_hop_t),
      trace_hops_loop ts js acc =
        acc ++ ((js.filter (fun j => (ts.hops j).flags ≠ TRACE_HOP_NONE)).map
          (mk_path_hop ts)).take (TRACE_PATH_MAX_HOPS - acc.length) := by
  intro js
  induction js with
  | nil => intro acc; simp [trace_hops_loop]
  | cons j js ih =>
      intro acc
      rw [trace_hops_loop]
      by_cases hfull : TRACE_PATH_MAX_HOPS ≤ acc.length
      · rw [if_pos hfull]
        have : TRACE_PATH_MAX_HOPS - acc.length = 0 := by omega
        rw [this]
        simp
      · rw [if_neg hfull]
        by_cases hnone : (ts.hops j).flags = TRACE_HOP_NONE
        · rw [if_pos hnone, ih acc]
          have : (List.filter (fun j => decide ((ts.hops j).flags ≠ TRACE_HOP_NONE)) (j :: js)) =
              List.filter (fun j => decide ((ts.hops j).flags ≠ TRACE_HOP_NONE)) js :=
            List.filter_cons_of_neg (by simp [hnone])
          rw [this]
        · rw [if_neg hnone, ih (acc ++ [mk_path_hop ts j])]
          have hfil : (List.filter (fun j => decide ((ts.hops j).flags ≠ TRACE_HOP_NONE))
              (j :: js)) = j :: List.filter (fun j => decide ((ts.hops j).flags ≠ TRACE_HOP_NONE))
              js :=
            List.filter_cons_of_pos (by simp [hnone])
          rw [hfil]
          have hlen : (acc ++ [mk_path_hop ts j]).length = acc.length + 1 := by simp
          rw [hlen]
          have hsub : TRACE_PATH_MAX_HOPS - acc.length = (TRACE_PATH_MAX_HOPS - (acc.length + 1)) + 1 := by
            unfold TRACE_PATH_MAX_HOPS at *
            omega
          rw [hsub]
          simp [List.take_succ_cons]

/-- C7: for every trace session with a valid magic,
`trace_session_to_path_report` succeeds (returns 1) and fills a report
whose hop list is exactly the session's hops with flags other than
`TRACE_HOP_NONE` and TTL between `minttl` and `maxttl`, in ascending TTL
(send) order with `hop_number` equal to the TTL, capped at
`TRACE_PATH_MAX_HOPS = 64` entries; `hop_count` is the number of such hops
capped at 64.  For a NULL session or a bad magic it fails (returns -1). -/
theorem trace_session_to_path_report_spec (ts : trace_session_t)
    (hmagic : ts.magic = TRACE_SESSION_MAGIC) :
    (∃ rpt, trace_session_to_path_report (some ts) = some rpt ∧
      rpt.hops = (((List.range' ts.minttl (ts.maxttl + 1 - ts.minttl)).filter
          (fun j => (ts.hops j).flags ≠ TRACE_HOP_NONE)).map (mk_path_hop ts)).take 64 ∧
      rpt.hop_count = min (((List.range' ts.minttl (ts.maxttl + 1 - ts.minttl)).filter
          (fun j => (ts.hops j).flags ≠ TRACE_HOP_NONE)).length) 64 ∧
      (∀ h ∈ rpt.hops, (ts.hops h.hop_number).flags ≠ TRACE_HOP_NONE ∧
        ts.minttl ≤ h.hop_number ∧ h.hop_number ≤ ts.maxttl ∧
        h.router_addr = (ts.hops h.hop_number).router_addr ∧
        h.rtt_us = (ts.hops h.hop_number).rtt_us ∧
        h.flags = (ts.hops h.hop_number).flags) ∧
      List.Pairwise (fun a b => a.hop_number < b.hop_number) rpt.hops ∧
      rpt.magic = TRACE_PATH_MAGIC ∧ rpt.target_addr = ts.target_addr ∧
      rpt.target_port = ts.target_port ∧ rpt.complete = ts.complete) ∧
    trace_session_to_path_report none = none ∧
    (∀ ts2 : trace_session_t, ts2.magic ≠ TRACE_SESSION_MAGIC →
      trace_session_to_path_report (some ts2) = none) := by
  refine ⟨?_, rfl, ?_⟩
  · have hloop := trace_hops_loop_eq ts
      (List.range' ts.minttl (ts.maxttl + 1 - ts.minttl)) []
    simp only [List.nil_append, List.length_nil, Nat.sub_zero] at hloop
    refine ⟨⟨TRACE_PATH_MAGIC, ts.target_addr, ts.target_port,
      (trace_hops_loop ts (List.range' ts.minttl (ts.maxttl + 1 - ts.minttl)) []).length,
      ts.complete, trace_hops_loop ts (List.range' ts.minttl (ts.maxttl + 1 - ts.minttl)) []⟩,
      ?_, ?_, ?_, ?_, ?_, rfl, rfl, rfl, rfl⟩
    · simp only [trace_session_to_path_report]
      rw [if_neg (by simp [hmagic])]
    · exact hloop
    · show (trace_hops_loop ts (List.range' ts.minttl (ts.maxttl + 1 - ts.minttl)) []).length = _
      rw [hloop, List.length_take, List.length_map]
      exact Nat.min_comm _ _
    · show ∀ h ∈ trace_hops_loop ts (List.range' ts.minttl (ts.maxttl + 1 - ts.minttl)) [], _
      rw [hloop]
      intro h hmem
      have hmem2 := List.mem_of_mem_take hmem
      obtain ⟨j, hj, rfl⟩ := List.mem_map.mp hmem2
      have hjf := List.of_mem_filter hj
      have hjr := List.mem_of_mem_filter hj
      obtain ⟨hj1, hj2⟩ := List.mem_range'_1.mp hjr
      simp only [mk_path_hop]
      exact ⟨by simpa using hjf, hj1, by omega, by trivial, by trivial, by trivial⟩
    · show List.Pairwise _ (trace_hops_loop ts (List.range' ts.minttl (ts.maxttl + 1 - ts.minttl)) [])
      rw [hloop]
      refine List.Pairwise.sublist (List.take_sublist _ _) ?_
      rw [List.pairwise_map]
      refine List.Pairwise.filter _ ?_
      have := List.pairwise_lt_range' ts.minttl (ts.maxttl + 1 - ts.minttl) 1
      exact this.imp (fun hab => hab)
  · intro ts2 hm
    simp only [trace_session_to_path_report]
    rw [if_pos hm]

def sample_trace_session : trace_session_t :=
  ⟨TRACE_SESSION_MAGIC, 134744072, 443, 1, 3, 3, 1,
    fun j =>
      if j = 1 then ⟨167837697, 1, 1200, TRACE_HOP_RECV⟩
      else if j = 2 then ⟨167903233, 2, 2100, TRACE_HOP_RECV⟩
      else if j = 3 then ⟨134744072, 3, 3300, TRACE_HOP_DEST⟩
      else ⟨0, 0, 0, TRACE_HOP_NONE⟩⟩

theorem trace_session_to_path_report_spec_witness :
    ∃ rpt, trace_session_to_path_report (some sample_trace_session) = some rpt := by
  obtain ⟨rpt, h1, _⟩ := (trace_session_to_path_report_spec sample_trace_session rfl).1
  exact ⟨rpt, h1⟩

/-! ### Compound mode parsing — src/scan_progs/scanopts.c lines 252-383

Strings are `List Char`.  `strtok_r(dup, "+", ...)` yields the non-empty
segments, so the token list is `splitOn '+'` with empty segments removed;
the `i != phase_count` check after the loop catches leading/trailing/double
`+`.  `M_DO_CONNECT`, `L_DO_CONNECT` and `S_SENDER_INTR` are flag values
from `settings.h` (not among the sources here) and are passed as
parameters; `scan_setretlayers` is an IPC request modelled as succeeding.
A run of digits read by `sscanf("%u")` is modelled as its numeric value. -/

def MODE_TCPSCAN : Nat := 1

def MODE_UDPSCAN : Nat := 2

def MODE_ARPSCAN : Nat := 4

def TH_ECE : Nat := 64

def TH_CWR : Nat := 128

/-- `ret &= ~(FLAG)`: `ret` only ever holds the eight TCP flag bits, so
clearing a flag is masking with its 8-bit complement. -/
def clear_flag (ret flag : Nat) : Nat := ret &&& (255 ^^^ flag)

/-- `decode_tcpflags` (scanopts.c lines 689-746): scan until NUL or a
digit; an unknown letter is an error (`none`). -/
def decode_tcpflags : List Char → Nat → Option Nat
  | [], ret => some ret
  | c :: cs, ret =>
      if c.isDigit then some ret
      else if c = 'F' then decode_tcpflags cs (ret ||| TH_FIN)
      else if c = 'f' then decode_tcpflags cs (clear_flag ret TH_FIN)
      else if c = 'S' then decode_tcpflags cs (ret ||| TH_SYN)
      else if c = 's' then decode_tcpflags cs (clear_flag ret TH_SYN)
      else if c = 'R' then decode_tcpflags cs (ret ||| TH_RST)
      else if c = 'r' then decode_tcpflags cs (clear_flag ret TH_RST)
      else if c = 'P' then decode_tcpflags cs (ret ||| TH_PSH)
      else if c = 'p' then decode_tcpflags cs (clear_flag ret TH_PSH)
      else if c = 'A' then decode_tcpflags cs (ret ||| TH_ACK)
      else if c = 'a' then decode_tcpflags cs (clear_flag ret TH_ACK)
      else if c = 'U' then decode_tcpflags cs (ret ||| TH_URG)
      else if c = 'u' then decode_tcpflags cs (clear_flag ret TH_URG)
      else if c = 'E' then decode_tcpflags cs (ret ||| TH_ECE)
      else if c = 'e' then decode_tcpflags cs (clear_flag ret TH_ECE)
      else if c = 'C' then decode_tcpflags cs (ret ||| TH_CWR)
      else if c = 'c' then decode_tcpflags cs (clear_flag ret TH_CWR)
      else none

def take_digits (cs : List Char) : List Char := cs.takeWhile Char.isDigit

def drop_digits (cs : List Char) : List Char := cs.dropWhile Char.isDigit

def digits_val (cs : List Char) : Nat :=
  cs.foldl (fun acc c => acc * 10 + (c.toNat - 48)) 0

/-- `parse_phase_modifiers` (scanopts.c lines 397-455): a chain of
`:R<repeats>` / `:L<timeout>` items; anything left over is an error. -/
def parse_phase_modifiers : List Char → Nat → Nat → Option (Nat × Nat)
  | [], repeats, timeout => some (repeats, timeout)
  | ':' :: rest, repeats, timeout =>
      match rest with
      | 'R' :: r2 =>
          if (take_digits r2).isEmpty then none
          else if 65535 < digits_val (take_digits r2) then none
          else parse_phase_modifiers (drop_digits r2) (digits_val (take_digits r2)) timeout
      | 'L' :: r2 =>
          if (take_digits r2).isEmpty then none
          else if 255 < digits_val (take_digits r2) then none
          else parse_phase_modifiers (drop_digits r2) repeats (digits_val (take_digits r2))
      | _ => none
  | _ :: _, _, _ => none
termination_by cs _ _ => cs.length
decreasing_by
  all_goals simp_wf
  all_goals have := (List.dropWhile_sublist Char.isDigit (l := r2)).length_le
  all_goals simp [drop_digits] at *
  all_goals omega

structure phase_parse_t where
  mode : Nat
  flags : Nat
  sf : Nat
  lf : Nat
  mf : Nat
  pps : Nat
  repeats : Nat
  timeout : Nat
deriving DecidableEq

/-- The tail of `scan_parsemode_ext` after the mode letter(s): optional PPS
digits, then optional `:`-modifiers; other leftovers are an error. -/
def parse_ext_tail (mode flags sf lf mf : Nat) (walk : List Char) : Option phase_parse_t :=
  if walk.isEmpty then some ⟨mode, flags, sf, lf, mf, 0, 0, 0⟩
  else
    let pps := if (walk.headD ' ').isDigit then digits_val (take_digits walk) else 0
    let walk2 := if (walk.headD ' ').isDigit then drop_digits walk else walk
    if walk2.isEmpty then some ⟨mode, flags, sf, lf, mf, pps, 0, 0⟩
    else if walk2.headD ' ' = ':' then
      match parse_phase_modifiers walk2 0 0 with
      | none => none
      | some (r, t) => some ⟨mode, flags, sf, lf, mf, pps, r, t⟩
    else none

/-- `scan_parsemode_ext` (scanopts.c lines 569-688). -/
def scan_parsemode_ext (MDC LDC SSI : Nat) : List Char → Option phase_parse_t
  | [] => none
  | 'T' :: walk =>
      if h : walk ≠ [] ∧ ¬(walk.headD ' ').isDigit ∧ walk.headD ' ' ≠ ':' then
        match decode_tcpflags walk 0 with
        | none => none
        | some fl => parse_ext_tail MODE_TCPSCAN fl 0 0 0
            (walk.dropWhile (fun c => ¬c.isDigit ∧ c ≠ ':'))
      else parse_ext_tail MODE_TCPSCAN TH_SYN 0 0 0 walk
  | 'U' :: walk => parse_ext_tail MODE_UDPSCAN 0 0 0 0 walk
  | 'A' :: walk => parse_ext_tail MODE_ARPSCAN 0 0 0 0 walk
  | 's' :: 'f' :: walk =>
      if h : walk ≠ [] ∧ walk.headD ' ' ≠ ':' then
        match decode_tcpflags walk 0 with
        | none => none
        | some fl => parse_ext_tail MODE_TCPSCAN fl SSI LDC MDC
            (walk.dropWhile (fun c => ¬c.isDigit ∧ c ≠ ':'))
      else parse_ext_tail MODE_TCPSCAN 0 SSI LDC MDC walk
  | _ => none

structure compound_phase_t where
  mode : Nat
  tcphdrflgs : Nat
  send_opts : Nat
  recv_opts : Nat
  pps : Nat
  repeats : Nat
  recv_timeout : Nat
deriving DecidableEq

def mk_compound_phase (p : phase_parse_t) : compound_phase_t :=
  ⟨p.mode, p.flags, p.sf, p.lf, p.pps, p.repeats, p.timeout⟩

def parse_tokens (MDC LDC SSI : Nat) : List (List Char) → Option (List compound_phase_t)
  | [] => some []
  | t :: ts =>
      match scan_parsemode_ext MDC LDC SSI t with
      | none => none
      | some p =>
          match parse_tokens MDC LDC SSI ts with
          | none => none
          | some rest => some (mk_compound_phase p :: rest)

/-- The ARP-position scan of `scan_parsemode_compound`: index of the first
phase whose mode is `MODE_ARPSCAN`. -/
def first_arp_pos : List compound_phase_t → Option Nat
  | [] => none
  | p :: rest =>
      if p.mode = MODE_ARPSCAN then some 0 else (first_arp_pos rest).map (· + 1)

/-- `scan_parsemode_compound` (scanopts.c lines 252-383): `none` is the -1
error return (the phase array is freed, nothing installed); `some phases`
is the phase list installed into `s->phases`. -/
def scan_parsemode_compound (MDC LDC SSI : Nat) (str : List Char) :
    Option (List compound_phase_t) :=
  if str.isEmpty then none
  else
    match parse_tokens MDC LDC SSI ((str.splitOn '+').filter (fun t => ¬t.isEmpty)) with
    | none => none
    | some phases =>
        if ((str.splitOn '+').filter (fun t => ¬t.isEmpty)).length ≠
            (str.countP (fun c => c = '+')) + 1 then none
        else
          match first_arp_pos phases with
          | some i => if 0 < i then none else some phases
          | none => some phases

/-- C9 counterexample: the compound mode string `A+T+A` contains an ARP
phase at position 2 (not the first), yet `scan_parsemode_compound`
succeeds and installs the three-phase list: the code only rejects when the
FIRST occurrence of ARP is at a non-zero position. -/
theorem scan_parsemode_compound_claim_false :
    ('+' ∈ "A+T+A".toList) ∧
      scan_parsemode_compound 0 0 0 "A+T+A".toList =
        some [⟨MODE_ARPSCAN, 0, 0, 0, 0, 0, 0⟩, ⟨MODE_TCPSCAN, TH_SYN, 0, 0, 0, 0, 0⟩,
          ⟨MODE_ARPSCAN, 0, 0, 0, 0, 0, 0⟩] := by
  decide

theorem first_arp_pos_spec (phases : List compound_phase_t)
    (h : first_arp_pos phases = none ∨ first_arp_pos phases = some 0) :
    ∀ p ∈ phases, p.mode = MODE_ARPSCAN →
      ∃ h0 : 0 < phases.length, (phases.get ⟨0, h0⟩).mode = MODE_ARPSCAN := by
  induction phases with
  | nil => intro p hp; simp at hp
  | cons q rest ih =>
      intro p hp harp
      by_cases hq : q.mode = MODE_ARPSCAN
      · exact ⟨by simp, hq⟩
      · exfalso
        rcases List.mem_cons.mp hp with rfl | hmem
        · exact hq harp
        · have hfirst : first_arp_pos (q :: rest) = (first_arp_pos rest).map (· + 1) := by
            rw [first_arp_pos, if_neg hq]
          rcases h with h | h
          · rw [hfirst] at h
            have hnone : first_arp_pos rest = none := by
              cases hrest : first_arp_pos rest with
              | none => rfl
              | some i => rw [hrest] at h; simp at h
            have : ∀ x ∈ rest, x.mode ≠ MODE_ARPSCAN := by
              intro x hx hxarp
              have := ih (Or.inl hnone) x hx hxarp
              obtain ⟨h0, hhead⟩ := this
              cases hrest2 : first_arp_pos rest with
              | none =>
                  cases rest with
                  | nil => simp at hx
                  | cons y ys =>
                      rw [first_arp_pos] at hrest2
                      by_cases hy : y.mode = MODE_ARPSCAN
                      · rw [if_pos hy] at hrest2; simp at hrest2
                      · have : (⟨0, h0⟩ : Fin (y :: ys).length).val = 0 := rfl
                        simp only [List.get] at hhead
                        exact hy hhead
              | some i => rw [hrest2] at hnone; simp at hnone
            exact this p hmem harp
          · rw [hfirst] at h
            cases hrest : first_arp_pos rest with
            | none => rw [hrest] at h; simp at h
            | some i => rw [hrest] at h; simp at h

/-- C9 (amended): when `scan_parsemode_compound` succeeds (installs a
phase list), any ARP phase in the list forces the FIRST phase to be ARP.
Contrapositive of the code's check: parsing fails (returns -1, no phase
list installed) exactly when the first occurrence of an ARP phase sits at
a position other than the first.  The original claim is too strong: a
string such as `A+T+A`, whose ARP phases include non-first positions but
whose first phase is ARP, parses successfully. -/
theorem scan_parsemode_compound_arp_must_be_first (MDC LDC SSI : Nat) (str : List Char)
    (phases : List compound_phase_t)
    (hsome : scan_parsemode_compound MDC LDC SSI str = some phases) :
    ∀ p ∈ phases, p.mode = MODE_ARPSCAN →
      ∃ h0 : 0 < phases.length, (phases.get ⟨0, h0⟩).mode = MODE_ARPSCAN := by
  refine first_arp_pos_spec phases ?_
  unfold scan_parsemode_compound at hsome
  by_cases hemp : str.isEmpty
  · rw [if_pos hemp] at hsome; simp at hsome
  · rw [if_neg hemp] at hsome
    cases hpt : parse_tokens MDC LDC SSI ((str.splitOn '+').filter (fun t => ¬t.isEmpty)) with
    | none => rw [hpt] at hsome; simp at hsome
    | some phases0 =>
        rw [hpt] at hsome
        dsimp only at hsome
        by_cases hcnt : ((str.splitOn '+').filter (fun t => ¬t.isEmpty)).length ≠
            (str.countP (fun c => c = '+')) + 1
        · rw [if_pos hcnt] at hsome; simp at hsome
        · rw [if_neg hcnt] at hsome
          cases hfa : first_arp_pos phases0 with
          | none =>
              rw [hfa] at hsome
              dsimp only at hsome
              simp only [Option.some_inj] at hsome
              subst hsome
              exact Or.inl hfa
          | some i =>
              rw [hfa] at hsome
              dsimp only at hsome
              by_cases hi : 0 < i
              · rw [if_pos hi] at hsome; simp at hsome
              · rw [if_neg hi] at hsome
                simp only [Option.some_inj] at hsome
                subst hsome
                right
                rw [hfa]
                congr 1
                omega

theorem scan_parsemode_compound_arp_must_be_first_witness :
    ∃ h0 : 0 < ([⟨MODE_ARPSCAN, 0, 0, 0, 0, 0, 0⟩,
        ⟨MODE_TCPSCAN, TH_SYN, 0, 0, 0, 0, 0⟩] : List compound_phase_t).length,
      (([⟨MODE_ARPSCAN, 0, 0, 0, 0, 0, 0⟩,
        ⟨MODE_TCPSCAN, TH_SYN, 0, 0, 0, 0, 0⟩] : List compound_phase_t).get
          ⟨0, h0⟩).mode = MODE_ARPSCAN :=
  scan_parsemode_compound_arp_must_be_first 0 0 0 "A+T".toList
    [⟨MODE_ARPSCAN, 0, 0, 0, 0, 0, 0⟩, ⟨MODE_TCPSCAN, TH_SYN, 0, 0, 0, 0, 0⟩]
    (by decide) ⟨MODE_ARPSCAN, 0, 0, 0, 0, 0, 0⟩ (by decide) (by decide)

/-! ### Phase-2 CIDR aggregation — src/main.c lines 157-329

The sorted ARP-responder array is a `List Nat` of IPv4 addresses (host
byte order, strictly ascending — `qsort` with `compare_ips` and one entry
per responder).  `ip_in_set` is the binary search (fuel is the interval
width plus one, which the halving loop never exhausts);
`find_largest_cidr` is the `cidr = 31 .. 24` loop returning the FIRST
fully-present aligned block, with `/32` fallback;
`aggregate_cidrs_and_create_workunits` walks the sorted array, emits a
block at each uncovered position and marks the covered contiguous run
(`ips[j] < ips[i] + block_size`), here the `dropWhile`.  A workunit
`(base, cidr)` stands for the `create_cidr_workunit` call. -/

def ip_in_set_go (ips : List Nat) (ip : Nat) : Nat → Nat → Nat → Bool
  | 0, _, _ => false
  | fuel + 1, lo, hi =>
      if lo < hi then
        if ips.getD ((lo + hi) / 2) 0 = ip then true
        else if ips.getD ((lo + hi) / 2) 0 < ip then
          ip_in_set_go ips ip fuel ((lo + hi) / 2 + 1) hi
        else ip_in_set_go ips ip fuel lo ((lo + hi) / 2)
      else false

def ip_in_set (ips : List Nat) (ip : Nat) : Bool :=
  ip_in_set_go ips ip (ips.length + 1) 0 ips.length

/-- The body of one `find_largest_cidr` loop iteration: the `/cidr` block
around `base_ip` must be aligned on `base_ip`
(`block_base = base_ip & ~(block_size-1) = base_ip`, written as
`base_ip / block_size * block_size`), must not pass `max_ip`, and every
address in it must be in the set. -/
def cidr_block_ok (ips : List Nat) (base_ip max_ip cidr : Nat) : Bool :=
  let block_size := 2 ^ (32 - cidr)
  if base_ip / block_size * block_size ≠ base_ip then false
  else if max_ip < base_ip / block_size * block_size + block_size - 1 then false
  else (List.range block_size).all
    (fun i => ip_in_set ips (base_ip / block_size * block_size + i))

/-- `find_largest_cidr` (main.c lines 188-229): try `cidr = 31` down to
`24`, return the first fully-present block, else fall back to `/32`. -/
def find_largest_cidr (ips : List Nat) (base_ip max_ip : Nat) : Nat :=
  match [31, 30, 29, 28, 27, 26, 25, 24].find? (cidr_block_ok ips base_ip max_ip) with
  | some cidr => cidr
  | none => 32

def aggregate_go (ips : List Nat) (max_ip : Nat) : Nat → List Nat → List (Nat × Nat)
  | 0, _ => []
  | _, [] => []
  | fuel + 1, h :: rest =>
      (h, find_largest_cidr ips h max_ip) ::
        aggregate_go ips max_ip fuel
          (rest.dropWhile (fun x => x < h + 2 ^ (32 - find_largest_cidr ips h max_ip)))

/-- `aggregate_cidrs_and_create_workunits` (main.c lines 286-329): the
emitted workunits in order, as `(block base, cidr)` pairs.  `max_ip` is
`ips[count-1]`; the fuel is the array length, never exhausted since every
step consumes at least the head. -/
def aggregate_cidrs_and_create_workunits (ips : List Nat) : List (Nat × Nat) :=
  match ips.getLast? with
  | none => []
  | some max_ip => aggregate_go ips max_ip ips.length ips

/-- C1: the code contradicts its own name, comments and the spec.  On the
fully-live `/30` block 10.0.0.0-10.0.0.3 (sorted addresses 167772160..
167772163), the `/30` at the base is aligned, in range, and every address
is live (`cidr_block_ok ... 30 = true`), so the LARGEST fully-present
aligned block at the first ip is the `/30` and the minimal greedy cover is
the single block `(167772160, 30)`.  But `find_largest_cidr` scans
`cidr = 31, 30, ..., 24` and returns on the FIRST success — the SMALLEST
fully-present block, `/31` — so the aggregation emits TWO workunits
`10.0.0.0/31` and `10.0.0.2/31` instead of one. -/
theorem find_largest_cidr_returns_smallest_block :
    cidr_block_ok [167772160, 167772161, 167772162, 167772163] 167772160 167772163 30 = true ∧
      find_largest_cidr [167772160, 167772161, 167772162, 167772163] 167772160 167772163 = 31 ∧
      aggregate_cidrs_and_create_workunits [167772160, 167772161, 167772162, 167772163] =
        [(167772160, 31), (167772162, 31)] := by
  decide

end Unicornscan
